import Mathlib

/-!
Verification development for the snarfetch HTTP caching/coalescing layer.

The definitions below are a shallow embedding of the TypeScript sources:
  * src/temporal.ts   — Instant / Duration arithmetic (integer milliseconds);
  * src/options.ts    — Bytes unit constructors;
  * src/cacheRules.ts — Cache-Control parsing and validity arithmetic;
  * src/gcmap.ts      — stable sort and the weight-bounded gc sweep;
  * src/index.ts      — the Coordinator maybeGc / rebalancing state machine;
  * src/target.ts     — the per-origin Target state machine, modelled as a
    small-step transition system over the cooperative event loop.

JavaScript numbers that can become NaN are modelled as `Option Int`
(`none` standing for NaN); the code under scrutiny only ever produces
integer-or-NaN values, so this model is exact.  Where the code divides
(`Math.ceil(ms / 1000)`, the Coordinator's fair-share division) the value
is an exact rational of the inputs, and is modelled over `Int` / `ℚ`.
-/

namespace Snarfetch

/-! ## JS numbers (integer or NaN) -/

/-- A JS number that is either an integer or NaN (`none`). -/
def JsNum : Type := Option Int

instance : DecidableEq JsNum := by
  unfold JsNum
  infer_instance

/-- NaN-propagating addition (`a + b`). -/
def jsAdd (a b : JsNum) : JsNum :=
  match a, b with
  | some x, some y => some (x + y)
  | _, _ => none

/-- NaN-propagating subtraction (`a - b`). -/
def jsSub (a b : JsNum) : JsNum :=
  match a, b with
  | some x, some y => some (x - y)
  | _, _ => none

/-- `Math.sign`, NaN-propagating. -/
def jsSign (a : JsNum) : JsNum :=
  match a with
  | some x => some (Int.sign x)
  | none => none

/-- `a <= 0` on a JS number; comparisons with NaN are false. -/
def jsLeZero (a : JsNum) : Bool :=
  match a with
  | some x => decide (x ≤ 0)
  | none => false

/-! ## JS string helpers (over character lists, fully computable) -/

/-- Split a character list at every occurrence of the separator `sep`
(`String.prototype.split` with a one-character separator). -/
def splitChar (sep : Char) : List Char → List (List Char)
  | [] => [[]]
  | c :: cs =>
    let rest := splitChar sep cs
    if c = sep then [] :: rest
    else
      match rest with
      | [] => [[c]]
      | seg :: segs => (c :: seg) :: segs

/-- `String.prototype.trim`: drop whitespace from both ends. -/
def jsTrim (s : String) : String :=
  String.mk
    (((s.toList.dropWhile Char.isWhitespace).reverse.dropWhile
      Char.isWhitespace).reverse)

/-- `String.prototype.toLowerCase` (ASCII, which is all the code compares). -/
def lowerStr (s : String) : String :=
  String.mk (s.toList.map Char.toLower)

/-- Decimal digit value of a character, if it is a digit. -/
def digitVal (c : Char) : Option Nat :=
  if '0' ≤ c ∧ c ≤ '9' then some (c.toNat - '0'.toNat) else none

/-- Accumulate the longest leading run of decimal digits;
`none` when no digit has been seen. -/
def parseDigits : List Char → Option Nat → Option Nat
  | [], acc => acc
  | c :: cs, acc =>
    match digitVal c with
    | some d => parseDigits cs (some (acc.getD 0 * 10 + d))
    | none => acc

/-- `Number.parseInt(s, 10)`: skip leading whitespace, optional sign, then
the longest run of decimal digits; NaN (`none`) when there is no digit.
Trailing garbage is ignored, exactly as in JS. -/
def jsParseInt (s : String) : JsNum :=
  match s.toList.dropWhile Char.isWhitespace with
  | '-' :: rest => (parseDigits rest none).map (fun n => -(n : Int))
  | '+' :: rest => (parseDigits rest none).map (fun n => (n : Int))
  | l => (parseDigits l none).map (fun n => (n : Int))

/-! ## Responses and headers

node-fetch `Headers` is a case-insensitive map; `set` replaces any existing
value for the name. -/

/-- An HTTP response: status plus a header list. -/
structure Response where
  status : Nat
  headers : List (String × String)
deriving DecidableEq

/-- `Headers.prototype.get` (case-insensitive name lookup). -/
def headerGet : List (String × String) → String → Option String
  | [], _ => none
  | (k, v) :: rest, name =>
    if lowerStr k = lowerStr name then some v else headerGet rest name

/-- `Headers.prototype.set`: replace any entry for the name. -/
def headerSet (hs : List (String × String)) (name v : String) :
    List (String × String) :=
  hs.filter (fun p => !(lowerStr p.1 == lowerStr name)) ++ [(name, v)]

/-- Set a header on a response. -/
def respSetHeader (r : Response) (name v : String) : Response :=
  { r with headers := headerSet r.headers name v }

/-! ## temporal.ts

`Instant` is an integer-millisecond timestamp, `Duration` integer (or NaN)
milliseconds; `Instant.compare (a, b) = Math.sign (a - b)`;
`a.since (b) = b - a`; `Duration.seconds = milliseconds / 1000`. -/

/-- `Math.ceil (ms / 1000)` for an integer millisecond count: the division is
exact rational, so its ceiling is `(ms + 999) / 1000` in floor division. -/
def ceilSeconds (ms : Int) : Int := (ms + 999) / 1000

/-! ## options.ts — Bytes -/

/-- The optional fields of `BytesParams` (each `undefined` or a number). -/
structure BytesParams where
  gigabytes : Option Int := none
  megabytes : Option Int := none
  kilobytes : Option Int := none
  bytes : Option Int := none
deriving DecidableEq

/-- `Bytes.from` exactly as written in options.ts.  Note that the source
reads `from.megabytes` on the `kilobytes` line and never reads
`from.kilobytes`. -/
def bytesFrom (p : BytesParams) : Int :=
  let gigabytes := p.gigabytes.getD 0
  let megabytes := gigabytes * 1024 + p.megabytes.getD 0
  let kilobytes := megabytes * 1024 + p.megabytes.getD 0
  kilobytes * 1024 + p.bytes.getD 0

/-! ## cacheRules.ts -/

/-- `CacheRuleParameters`.  Durations are NaN-able millisecond counts;
`ageBase` is a NaN-able instant.  (`private` / `public` are Lean keywords,
hence `isPrivate` / `isPublic`.) -/
structure CacheRuleParameters where
  maxAge : JsNum
  sMaxAge : JsNum
  noCache : Bool
  mustRevalidate : Bool
  proxyRevalidate : Bool
  noStore : Bool
  isPrivate : Bool
  isPublic : Bool
  mustUnderstand : Bool
  noTransform : Bool
  immutable : Bool
  staleWhileRevalidate : JsNum
  staleIfError : JsNum
  ageBase : JsNum
deriving DecidableEq

/-- `defaultRules ()`; `now` stands for the `Now.instant ()` taken at
extraction time. -/
def defaultRules (now : Int) : CacheRuleParameters :=
  { maxAge := some 0
    sMaxAge := some 0
    noCache := false
    mustRevalidate := false
    proxyRevalidate := false
    noStore := false
    isPrivate := false
    isPublic := false
    mustUnderstand := false
    noTransform := false
    immutable := false
    staleWhileRevalidate := some 0
    staleIfError := some 0
    ageBase := some now }

/-- One iteration of the directive loop in `extractCacheRules`:
`rawRule.split ('=', 2)`, lower-case the name, `Number.parseInt` the value
(`NaN` when missing or unparsable — the `?? undefined` in the source never
fires, since `NaN` is not nullish), `Duration.from ({seconds: value})`. -/
def applyDirective (acc : CacheRuleParameters) (raw : String) :
    CacheRuleParameters :=
  let parts := splitChar '=' raw.toList
  let rule := lowerStr (String.mk (parts.headD []))
  let value : JsNum :=
    match parts with
    | _ :: v :: _ => jsParseInt (String.mk v)
    | _ => none
  let duration : JsNum := value.map (fun n => n * 1000)
  if rule = "max-age" then { acc with maxAge := duration }
  else if rule = "s-max-age" then { acc with sMaxAge := duration }
  else if rule = "no-cache" then { acc with noCache := true }
  else if rule = "must-revalidate" then { acc with mustRevalidate := true }
  else if rule = "proxy-revalidate" then { acc with proxyRevalidate := true }
  else if rule = "no-store" then { acc with noStore := true }
  else if rule = "private" then { acc with isPrivate := true }
  else if rule = "public" then { acc with isPublic := true }
  else if rule = "must-understand" then { acc with mustUnderstand := true }
  else if rule = "no-transform" then { acc with noTransform := true }
  else if rule = "immutable" then { acc with immutable := true }
  else if rule = "stale-while-revalidate" then
    { acc with staleWhileRevalidate := duration }
  else if rule = "stale-if-error" then { acc with staleIfError := duration }
  else acc

/-- The directive loop of `extractCacheRules`: the `cache-control` header is
split on `;`, each piece trimmed and dispatched over the defaults. -/
def parseCacheHeader (resp : Response) (now : Int) : CacheRuleParameters :=
  ((splitChar ';' ((headerGet resp.headers "cache-control").getD "").toList).map
    (fun cs => jsTrim (String.mk cs))).foldl applyDirective (defaultRules now)

/-- `extractCacheRules (result)` from cacheRules.ts, with the wall clock
injected as `now`: the directive loop, then a non-empty `age` header moves
`ageBase` to `Now.instant ().subtract ({seconds: age})` (NaN-propagating;
the empty string is falsy in JS, so it leaves `ageBase` alone). -/
def extractCacheRules (resp : Response) (now : Int) : CacheRuleParameters :=
  match headerGet resp.headers "age" with
  | some ageStr =>
    if ageStr = "" then parseCacheHeader resp now
    else
      { parseCacheHeader resp now with
          ageBase := (jsParseInt ageStr).map (fun a => now - a * 1000) }
  | none => parseCacheHeader resp now

/-- `CacheRules.validAt (instant)`: false under `noCache` / `noStore`, true
under `immutable`, otherwise `Instant.compare (instant, ageBase + maxAge) ≤ 0`
(`Math.sign` of the difference; any NaN makes the comparison false). -/
def validAt (p : CacheRuleParameters) (instant : JsNum) : Bool :=
  if p.noCache || p.noStore then false
  else if p.immutable then true
  else jsLeZero (jsSign (jsSub instant (jsAdd p.ageBase p.maxAge)))

/-! ## gcmap.ts -/

/-- Insert `x` into a list after every element `y` with `le y x`.
Folding this over a list from the left is a stable sort, which is exactly
the observable behaviour of `Array.prototype.sort` (stable since ES2019)
under a consistent comparator. -/
def insertSorted {α : Type} (le : α → α → Bool) (x : α) : List α → List α
  | [] => [x]
  | y :: ys => if le y x then y :: insertSorted le x ys else x :: y :: ys

/-- Stable sort with respect to `le` (models `Array.prototype.sort`). -/
def jsSort {α : Type} (le : α → α → Bool) (l : List α) : List α :=
  l.foldl (fun acc x => insertSorted le x acc) []

/-- `sortByKey` as used inside `gc`: pair every entry with its extracted sort
key, stable-sort by the negated comparator (latest first), drop the keys. -/
def sortByKeyDesc {K V S : Type} (entries : List (K × V)) (sortKey : V → S)
    (cmp : S → S → Int) : List (K × V) :=
  ((entries.map (fun kv => (sortKey kv.2, kv))).foldl
    (fun acc x => insertSorted (fun a b => decide (-(cmp a.1 b.1) ≤ 0)) x acc)
    []).map (fun kv => kv.2)

/-- The loop of `gc`: walk the descending-recency list; a weigher failure
aborts the walk with the error (deletions already performed stand); an entry
whose weight does not fit on top of `runningSize` is deleted (`continue`),
otherwise its weight accumulates.  Returns the deleted keys (the `deleter`
calls, in order) together with the outcome. -/
def gcLoop {K V E : Type} (weigher : V → Except E Int) (limit : Int) :
    List (K × V) → Int → List K → List K × Except E Int
  | [], running, deleted => (deleted, Except.ok running)
  | (k, v) :: rest, running, deleted =>
    match weigher v with
    | Except.error e => (deleted, Except.error e)
    | Except.ok size =>
      if limit < running + size then gcLoop weigher limit rest running (deleted ++ [k])
      else gcLoop weigher limit rest (running + size) deleted

/-- `gc (entries, sortKey, sortKeyComparer, weigher, limit, deleter)` from
gcmap.ts: the entry list is materialised and sorted latest-first before the
walk, so deletions cannot disturb the iteration. -/
def gc {K V S E : Type} (entries : List (K × V)) (sortKey : V → S)
    (cmp : S → S → Int) (weigher : V → Except E Int) (limit : Int) :
    List K × Except E Int :=
  gcLoop weigher limit (sortByKeyDesc entries sortKey cmp) 0 []

/-! ## index.ts — the Coordinator -/

/-- The Coordinator's gc bookkeeping: `#gcInProgress` and `#nextGc`. -/
structure CoordState where
  gcInProgress : Bool
  nextGc : Int
deriving DecidableEq

/-- `#maybeGc` up to the point where the deferred task is scheduled:
returns whether a pass was started, plus the updated state.  The guard is
`gcInProgress || Instant.compare (now (), nextGc) < 0`. -/
def maybeGcStart (s : CoordState) (now : Int) : Bool × CoordState :=
  if s.gcInProgress || decide (Int.sign (now - s.nextGc) < 0) then (false, s)
  else (true, { s with gcInProgress := true })

/-- The effect of the deferred gc task on the bookkeeping state: the source
resets `#gcInProgress` and `#nextGc` only inside the `total > maximum`
branch; on the benign path the state is left untouched. -/
def gcTaskFinish (s : CoordState) (total maximum : ℚ) (now gcInterval : Int) :
    CoordState :=
  if maximum < total then { gcInProgress := false, nextGc := now + gcInterval }
  else s

/-- Run a sequence of incoming `fetch` calls (each invoking `#maybeGc` at the
given instant) and report whether any of them starts a gc pass. -/
def anyPassStarts (s : CoordState) : List Int → Bool
  | [] => false
  | t :: ts =>
    let r := maybeGcStart s t
    r.1 || anyPassStarts r.2 ts

/-- The `while (maximum / sorted.length > sorted[0][1])` loop of `#maybeGc`:
shift the smallest weight off the list and subtract it from the budget.
`none` models the abnormal exit (indexing `sorted[0]` on an empty list /
the `Shifted out all of the targets` throw). -/
def shiftLoop : List ℚ → ℚ → Option (List ℚ × ℚ)
  | [], _ => none
  | w :: rest, m =>
    if m / ((rest.length : ℚ) + 1) > w then shiftLoop rest (m - w)
    else some (w :: rest, m)

/-- The rebalancing tail of `#maybeGc` once `total > maximum`: sort the
per-Target weights ascending (`sortByKey` with the default sign comparator),
run the shift loop, then compute `newLimit = maximum / sorted.length`. -/
def rebalance (weights : List ℚ) (maximum : ℚ) : Option (ℚ × List ℚ) :=
  match shiftLoop (jsSort (fun a b => decide (a ≤ b)) weights) maximum with
  | none => none
  | some (l, m) => some (m / (l.length : ℚ), l)

/-! ## target.ts — the Target state machine

The two-caller coalescing scenario is modelled as a small-step transition
system over the cooperative event loop: two tasks (`true` and `false`),
one location (both callers use the same `(pathname, query)` key), a shared
`known` entry, a shared underlying-fetch invocation counter and a
monotonic clock.  Each step is one synchronous slice of target.ts between
suspension points (`await`). -/

/-- `LocationCacheStatus`: the tagged status stored in `#known` for the
location.  `unknownStatus j` records which task's `#postFetch` completion
resolves the `unblock` future; `cachedStatus` keeps the extracted rules and
the stored (already `MISS`-annotated) response. -/
inductive LocStatus where
  | unknownStatus (installer : Bool)
  | noStoreStatus
  | cachedStatus (rules : CacheRuleParameters) (stored : Response)
  | failStatus
deriving DecidableEq

/-- The program counter of one `Target.fetch` caller, one constructor per
suspension point of target.ts. -/
inductive TaskPC where
  | idle
  | waitUnblock (t0 : Int) (installer : Bool)
  | hitWait (t0 : Int) (rules : CacheRuleParameters) (stored : Response)
  | awaitFetch (t0 : Int)
  | missWait (t0 : Int) (rules : CacheRuleParameters) (stored : Response)
  | doneSt (r : Response)
deriving DecidableEq

/-- The shared system state of the two-caller scenario. -/
structure Sys where
  known : Option LocStatus
  fetchCount : Nat
  now : Int
  pcA : TaskPC
  pcB : TaskPC
deriving DecidableEq

/-- Program counter of task `i`. -/
def pcOf (s : Sys) (i : Bool) : TaskPC := cond i s.pcA s.pcB

/-- Replace the program counter of task `i`. -/
def setPc (s : Sys) (i : Bool) (p : TaskPC) : Sys :=
  cond i { s with pcA := p } { s with pcB := p }

/-- `Cached.#buildResponse` (target.ts): rebuild a response from the stored
body and headers, overwriting the `age` header with
`Math.ceil (ageBase.since (now ()).seconds).toString ()`. -/
def ageHeaderValue (ageBase : JsNum) (now : Int) : String :=
  match ageBase with
  | some ab => toString (ceilSeconds (now - ab))
  | none => "NaN"

/-- The response produced by `Cached.#buildResponse` at instant `now`. -/
def buildCachedResponse (rules : CacheRuleParameters) (stored : Response)
    (now : Int) : Response :=
  respSetHeader stored "age" (ageHeaderValue rules.ageBase now)

/-- The cache-hit return path of `Target.fetch`: await the rebuilt response,
then set `snarfetch-status: HIT in <d> ms` with
`d = requestStart.since (now ())`. -/
def hitFinish (rules : CacheRuleParameters) (stored : Response)
    (t0 now : Int) : Response :=
  respSetHeader (buildCachedResponse rules stored now) "snarfetch-status"
    ("HIT in " ++ toString (now - t0) ++ " ms")

/-- The synchronous part of `Target.#postFetch` after `await promise`,
acting on the fetch result `r` at instant `now` for a request that started
at `t0`: 5xx installs `Fail` and returns `r` untouched; `no-store` installs
`NoStore` and annotates `r` with `NOSTORE`; otherwise `r` is annotated with
`MISS`, stored as `Cached`, and the caller is left awaiting
`cache.response`. -/
def postFetchSlice (r : Response) (t0 now : Int) : Option LocStatus × TaskPC :=
  if 500 ≤ r.status then (some LocStatus.failStatus, TaskPC.doneSt r)
  else
    let rules := extractCacheRules r now
    let d := now - t0
    if rules.noStore then
      (some LocStatus.noStoreStatus,
        TaskPC.doneSt
          (respSetHeader r "snarfetch-status" ("NOSTORE in " ++ toString d ++ " ms")))
    else
      let stored :=
        respSetHeader r "snarfetch-status" ("MISS in " ++ toString d ++ " ms")
      (some (LocStatus.cachedStatus rules stored),
        TaskPC.missWait t0 rules stored)

/-- The dispatch in `Target.fetch` after the (possible) coalescing wait, for
task `i` whose request started at `t0` (validity is checked at `t0`, not at
the current instant): a valid `Cached` entry is awaited (hit path); any
other entry causes a fetch, installing `Unknown` exactly when the entry was
absent or an invalidated `Cached` (`!cacheStatus` in the source). -/
def applyDispatch (s : Sys) (i : Bool) (t0 : Int) : Sys :=
  match s.known with
  | some (LocStatus.cachedStatus rules stored) =>
    if validAt rules (some t0) then
      setPc s i (TaskPC.hitWait t0 rules stored)
    else
      { setPc s i (TaskPC.awaitFetch t0) with
          known := some (LocStatus.unknownStatus i)
          fetchCount := s.fetchCount + 1 }
  | none =>
    { setPc s i (TaskPC.awaitFetch t0) with
        known := some (LocStatus.unknownStatus i)
        fetchCount := s.fetchCount + 1 }
  | some _ =>
    { setPc s i (TaskPC.awaitFetch t0) with fetchCount := s.fetchCount + 1 }

/-- Write-back of `#postFetch` for task `i` with fetch result `res i`. -/
def postFetchUpd (res : Bool → Response) (s : Sys) (i : Bool) (t0 : Int) : Sys :=
  let out := postFetchSlice (res i) t0 s.now
  { setPc s i out.2 with known := out.1 }

/-- Step labels: `post i` marks the arrival of task `i`'s fetch result
(the `#postFetch` writeback, i.e. the instant cacheability becomes known)
and its follow-up body await; everything else is `act`. -/
inductive Lab where
  | act
  | post (i : Bool)
deriving DecidableEq

/-- The small-step relation for two concurrent `Target.fetch` callers with
the same location key.  `res i` is the response the underlying fetcher
eventually delivers to task `i`'s invocation. -/
inductive Step (res : Bool → Response) : Lab → Sys → Sys → Prop where
  | tick {s : Sys} (d : Int) (hd : 0 ≤ d) :
      Step res Lab.act s { s with now := s.now + d }
  | startWait {s : Sys} (i j : Bool)
      (hpc : pcOf s i = TaskPC.idle)
      (hk : s.known = some (LocStatus.unknownStatus j)) :
      Step res Lab.act s (setPc s i (TaskPC.waitUnblock s.now j))
  | startRun {s : Sys} (i : Bool)
      (hpc : pcOf s i = TaskPC.idle)
      (hk : ∀ j, s.known ≠ some (LocStatus.unknownStatus j)) :
      Step res Lab.act s (applyDispatch s i s.now)
  | resumeRun {s : Sys} (i : Bool) (t0 : Int) (j : Bool) (r : Response)
      (hpc : pcOf s i = TaskPC.waitUnblock t0 j)
      (hj : pcOf s j = TaskPC.doneSt r) :
      Step res Lab.act s (applyDispatch s i t0)
  | hitDone {s : Sys} (i : Bool) (t0 : Int) (rules : CacheRuleParameters)
      (stored : Response)
      (hpc : pcOf s i = TaskPC.hitWait t0 rules stored) :
      Step res Lab.act s (setPc s i (TaskPC.doneSt (hitFinish rules stored t0 s.now)))
  | missDone {s : Sys} (i : Bool) (t0 : Int) (rules : CacheRuleParameters)
      (stored : Response)
      (hpc : pcOf s i = TaskPC.missWait t0 rules stored) :
      Step res (Lab.post i) s
        (setPc s i (TaskPC.doneSt (buildCachedResponse rules stored s.now)))
  | fetchDone {s : Sys} (i : Bool) (t0 : Int)
      (hpc : pcOf s i = TaskPC.awaitFetch t0) :
      Step res (Lab.post i) s (postFetchUpd res s i t0)

/-- Initial state: no entry for the location, no fetches, both callers
about to issue their requests. -/
def initSys (n0 : Int) : Sys :=
  { known := none, fetchCount := 0, now := n0
    pcA := TaskPC.idle, pcB := TaskPC.idle }

/-- Inductive invariant of the phase before any `#postFetch` completes
(no `post` step has fired): either nothing has happened yet, or exactly one
task has installed `Unknown` and invoked the fetcher once, while the other
is idle or parked on the `unblock` future. -/
def InvAct (s : Sys) : Prop :=
  (s.known = none ∧ s.fetchCount = 0 ∧
    s.pcA = TaskPC.idle ∧ s.pcB = TaskPC.idle) ∨
  (∃ j t0, s.known = some (LocStatus.unknownStatus j) ∧ s.fetchCount = 1 ∧
    pcOf s j = TaskPC.awaitFetch t0 ∧
    (pcOf s (!j) = TaskPC.idle ∨
      ∃ t1, pcOf s (!j) = TaskPC.waitUnblock t1 j))

/-! ## Concrete fixtures used by witnesses and counterexamples -/

/-- A rule set with a one-minute `max-age` received at instant 0. -/
def c2Params : CacheRuleParameters := { defaultRules 0 with maxAge := some 60000 }

/-- A weigher whose future rejects on every value except 20. -/
def failingWeigher : Int → Except Unit Int :=
  fun v => if v = 20 then Except.ok 6 else Except.error ()

/-- A response carrying an `Age: 10` header. -/
def respWithAge : Response :=
  { status := 200, headers := [("age", "10"), ("cache-control", "max-age=60")] }

/-- A bare 5xx response. -/
def resp500 : Response := { status := 500, headers := [] }

end Snarfetch

/-! # Theorems -/

namespace Snarfetch

/-! ## General helper lemmas -/

theorem sign_le_zero (x : Int) : (Int.sign x ≤ 0) ↔ x ≤ 0 := by
  rcases x with (_ | n) | n
  · simp
  · rw [show Int.sign (Int.ofNat (n + 1)) = 1 from rfl]
    simp [Int.ofNat_eq_natCast]
  · rw [show Int.sign (Int.negSucc n) = -1 from rfl]
    simp [Int.negSucc_eq]
    omega

theorem bool_eq_not_of_ne {a b : Bool} (h : a ≠ b) : a = !b := by
  revert h
  cases a <;> cases b <;> decide

theorem headerGet_nil (n : String) : headerGet [] n = none := rfl

theorem headerGet_cons (k v : String) (rest : List (String × String))
    (n : String) :
    headerGet ((k, v) :: rest) n =
      if lowerStr k = lowerStr n then some v else headerGet rest n := rfl

theorem headerGet_headerSet_self (hs : List (String × String)) (n v : String) :
    headerGet (headerSet hs n v) n = some v := by
  induction hs with
  | nil => simp [headerSet, headerGet]
  | cons p rest ih =>
    by_cases h : lowerStr p.1 = lowerStr n
    · simpa [headerSet, h] using ih
    · simpa [headerSet, headerGet, h] using ih

theorem headerGet_headerSet_other (hs : List (String × String)) (n v n2 : String)
    (hne : lowerStr n2 ≠ lowerStr n) :
    headerGet (headerSet hs n v) n2 = headerGet hs n2 := by
  induction hs with
  | nil =>
    show headerGet [(n, v)] n2 = headerGet [] n2
    rw [headerGet_cons, if_neg (fun h => hne h.symm), headerGet_nil]
  | cons p rest ih =>
    obtain ⟨k0, v0⟩ := p
    by_cases h : lowerStr k0 = lowerStr n
    · have hdrop : headerSet ((k0, v0) :: rest) n v = headerSet rest n v := by
        simp [headerSet, List.filter_cons, h]
      have hp2 : lowerStr k0 ≠ lowerStr n2 := by
        rw [h]
        exact fun h2 => hne h2.symm
      rw [hdrop, ih, headerGet_cons, if_neg hp2]
    · have hkeep : headerSet ((k0, v0) :: rest) n v =
          (k0, v0) :: headerSet rest n v := by
        simp [headerSet, List.filter_cons, h]
      rw [hkeep, headerGet_cons, headerGet_cons]
      by_cases h2 : lowerStr k0 = lowerStr n2
      · rw [if_pos h2, if_pos h2]
      · rw [if_neg h2, if_neg h2, ih]

theorem mem_insertSorted {α : Type} (le : α → α → Bool) (x : α) :
    ∀ (l : List α) (y : α), y ∈ insertSorted le x l ↔ y = x ∨ y ∈ l := by
  intro l
  induction l with
  | nil => intro y; simp [insertSorted]
  | cons z zs ih =>
    intro y
    have hd : insertSorted le x (z :: zs) =
        if le z x then z :: insertSorted le x zs else x :: z :: zs := rfl
    rw [hd]
    by_cases h : le z x
    · rw [if_pos h]
      simp only [List.mem_cons, ih]
      tauto
    · rw [if_neg h]
      simp [List.mem_cons]

theorem mem_foldl_insertSorted {α : Type} (le : α → α → Bool) :
    ∀ (l acc : List α) (y : α),
      y ∈ l.foldl (fun a x => insertSorted le x a) acc ↔ y ∈ acc ∨ y ∈ l := by
  intro l
  induction l with
  | nil => intro acc y; simp
  | cons x xs ih =>
    intro acc y
    simp only [List.foldl_cons, ih, mem_insertSorted, List.mem_cons]
    tauto

theorem mem_sortByKeyDesc {K V S : Type} (entries : List (K × V))
    (sortKey : V → S) (cmp : S → S → Int) (kv : K × V)
    (h : kv ∈ sortByKeyDesc entries sortKey cmp) : kv ∈ entries := by
  unfold sortByKeyDesc at h
  rcases List.mem_map.mp h with ⟨skv, hmem, hval⟩
  rcases (mem_foldl_insertSorted _ _ _ _).mp hmem with h0 | h1
  · cases h0
  · rcases List.mem_map.mp h1 with ⟨kv2, hkv2, hval2⟩
    rw [← hval, ← hval2]
    exact hkv2

theorem sum_insertSorted (le : ℚ → ℚ → Bool) (x : ℚ) :
    ∀ l : List ℚ, (insertSorted le x l).sum = x + l.sum := by
  intro l
  induction l with
  | nil => simp [insertSorted]
  | cons y ys ih =>
    have hd : insertSorted le x (y :: ys) =
        if le y x then y :: insertSorted le x ys else x :: y :: ys := rfl
    rw [hd]
    by_cases h : le y x
    · rw [if_pos h]
      simp only [List.sum_cons, ih]
      ring
    · rw [if_neg h]
      simp only [List.sum_cons]

theorem sum_foldl_insertSorted (le : ℚ → ℚ → Bool) :
    ∀ (l acc : List ℚ),
      (l.foldl (fun a x => insertSorted le x a) acc).sum = acc.sum + l.sum := by
  intro l
  induction l with
  | nil => intro acc; simp
  | cons x xs ih =>
    intro acc
    simp only [List.foldl_cons, ih, sum_insertSorted, List.sum_cons]
    ring

theorem sum_jsSort (le : ℚ → ℚ → Bool) (l : List ℚ) :
    (jsSort le l).sum = l.sum := by
  unfold jsSort
  rw [sum_foldl_insertSorted]
  simp

theorem gcLoop_error_mem {K V E : Type} (weigher : V → Except E Int)
    (limit : Int) :
    ∀ (l : List (K × V)) (running : Int) (deleted : List K) (e : E),
      (gcLoop weigher limit l running deleted).2 = Except.error e →
      ∃ kv, kv ∈ l ∧ weigher kv.2 = Except.error e := by
  intro l
  induction l with
  | nil => intro running deleted e h; simp [gcLoop] at h
  | cons kv rest ih =>
    intro running deleted e h
    obtain ⟨k, v⟩ := kv
    unfold gcLoop at h
    rcases hw : weigher v with e2 | size
    · rw [hw] at h
      have h2 : (Except.error e2 : Except E Int) = Except.error e := h
      injection h2 with h3
      exact ⟨(k, v), List.mem_cons_self _ _, by rw [hw, h3]⟩
    · rw [hw] at h
      have h2 : (if limit < running + size then
            gcLoop weigher limit rest running (deleted ++ [k])
          else gcLoop weigher limit rest (running + size) deleted).2 =
          Except.error e := h
      by_cases hc : limit < running + size
      · rw [if_pos hc] at h2
        rcases ih _ _ _ h2 with ⟨kv2, hmem, herr⟩
        exact ⟨kv2, List.mem_cons_of_mem _ hmem, herr⟩
      · rw [if_neg hc] at h2
        rcases ih _ _ _ h2 with ⟨kv2, hmem, herr⟩
        exact ⟨kv2, List.mem_cons_of_mem _ hmem, herr⟩

theorem anyPassStarts_of_inProgress (s : CoordState)
    (hs : s.gcInProgress = true) :
    ∀ ts : List Int, anyPassStarts s ts = false := by
  intro ts
  induction ts with
  | nil => rfl
  | cons t rest ih =>
    unfold anyPassStarts maybeGcStart
    rw [hs]
    simpa using ih

theorem shiftLoop_total :
    ∀ (l : List ℚ) (m : ℚ), m < l.sum → (0 ≤ m ∨ l ≠ []) →
      ∃ l2 m2, shiftLoop l m = some (l2, m2) ∧ l2 ≠ [] := by
  intro l
  induction l with
  | nil =>
    intro m hsum hside
    simp at hsum
    rcases hside with h | h
    · exact absurd hsum (by linarith)
    · exact absurd rfl h
  | cons w rest ih =>
    intro m hsum hside
    unfold shiftLoop
    by_cases hc : m / ((rest.length : ℚ) + 1) > w
    · rw [if_pos hc]
      apply ih
      · have hs : m < w + rest.sum := by simpa using hsum
        linarith
      · rcases rest with _ | ⟨r, rs⟩
        · left
          norm_num at hc
          linarith
        · right
          simp
    · rw [if_neg hc]
      exact ⟨w :: rest, m, rfl, by simp⟩

/-! ## Claim theorems -/

/-- Claim C2: for every rule set and every instant, `validAt` is false when
`noCache` or `noStore` is set; otherwise true when `immutable` is set;
otherwise true exactly when the instant is at most `ageBase + maxAge`,
the boundary instant included. -/
theorem c2_validAt_spec (p : CacheRuleParameters) (t ab ma : Int)
    (hab : p.ageBase = some ab) (hma : p.maxAge = some ma) :
    ((p.noCache = true ∨ p.noStore = true) → validAt p (some t) = false) ∧
    (p.noCache = false → p.noStore = false → p.immutable = true →
      validAt p (some t) = true) ∧
    (p.noCache = false → p.noStore = false → p.immutable = false →
      (validAt p (some t) = true ↔ t ≤ ab + ma)) := by
  unfold validAt
  refine ⟨?_, ?_, ?_⟩
  · rintro (h | h) <;> simp [h]
  · intro h1 h2 h3
    simp [h1, h2, h3]
  · intro h1 h2 h3
    rw [hab, hma]
    simp only [h1, h2, h3, Bool.or_self, Bool.false_eq_true, if_false,
      jsAdd, jsSub, jsSign, jsLeZero, decide_eq_true_eq]
    rw [sign_le_zero]
    omega

/-- Witness for C2 at the inclusive boundary: a `max-age=60` rule received
at instant 0 is still valid at instant 60000 (= ageBase + maxAge). -/
theorem c2_validAt_spec_witness : validAt c2Params (some 60000) = true :=
  ((c2_validAt_spec c2Params 60000 0 60000 rfl rfl).2.2 rfl rfl rfl).mpr
    (by decide)

/-- Claim C3: gc retains greedily in descending recency order and skips
(rather than stops at) an entry that does not fit: with weights
[0,1,2,3,4], recency equal to insertion order and limit 9, exactly the
entry of weight 1 is deleted and the retained cumulative weight is 9. -/
theorem c3_gc_skips :
    gc (E := Unit)
      [((0 : Int), ((0 : Int), (0 : Int))), (1, (1, 1)), (2, (2, 2)),
        (3, (3, 3)), (4, (4, 4))]
      (fun v => v.1) (fun a b => Int.sign (a - b))
      (fun v => Except.ok v.2) 9 = ([1], Except.ok 9) := rfl

/-- Claim C4: when the deferred global GC pass ends with
`total ≤ maximumStorageBytes`, the source leaves `gcInProgress` set and
`nextGc` unchanged (both are reset only inside the `total > maximum`
branch), so no subsequent `fetch` call ever starts another global pass. -/
theorem c4_gc_reset_bug (s : CoordState) (total maximum : ℚ)
    (now gcInterval : Int) (hs : s.gcInProgress = true)
    (hb : total ≤ maximum) :
    (gcTaskFinish s total maximum now gcInterval).gcInProgress = true ∧
    (gcTaskFinish s total maximum now gcInterval).nextGc = s.nextGc ∧
    ∀ ts : List Int,
      anyPassStarts (gcTaskFinish s total maximum now gcInterval) ts = false := by
  have he : gcTaskFinish s total maximum now gcInterval = s := by
    unfold gcTaskFinish
    rw [if_neg (not_lt.mpr hb)]
  rw [he]
  exact ⟨hs, rfl, anyPassStarts_of_inProgress s hs⟩

/-- Witness for C4: after a benign pass (total 1 ≤ maximum 2) the flag is
still set, `nextGc` still 7, and no later call starts a pass. -/
theorem c4_gc_reset_bug_witness :
    (gcTaskFinish ⟨true, 7⟩ 1 2 100 60000).gcInProgress = true ∧
    (gcTaskFinish ⟨true, 7⟩ 1 2 100 60000).nextGc = 7 ∧
    ∀ ts : List Int, anyPassStarts (gcTaskFinish ⟨true, 7⟩ 1 2 100 60000) ts = false :=
  c4_gc_reset_bug ⟨true, 7⟩ 1 2 100 60000 rfl (by norm_num)

/-- Claim C6 (code bug): a valued directive whose value fails to parse
yields a NaN duration, not the zero duration the claim states — observable
because `validAt` is then false even at the extraction instant, while a
zero `max-age` is valid there; the case-insensitivity and
unknown-directives-ignored parts of the claim do hold. -/
theorem c6_parse_failure_nan :
    (extractCacheRules { status := 200, headers := [("cache-control", "max-age=x")] } 0).maxAge = none ∧
    (extractCacheRules { status := 200, headers := [("cache-control", "max-age=x")] } 0).maxAge ≠ some 0 ∧
    validAt (extractCacheRules { status := 200, headers := [("cache-control", "max-age=x")] } 0) (some 0) = false ∧
    validAt (extractCacheRules { status := 200, headers := [("cache-control", "max-age=0")] } 0) (some 0) = true ∧
    (extractCacheRules { status := 200, headers := [("cache-control", "MAX-AGE=60")] } 0).maxAge = some 60000 ∧
    extractCacheRules { status := 200, headers := [("cache-control", "frobnicate; max-age=60")] } 0 =
      extractCacheRules { status := 200, headers := [("cache-control", "max-age=60")] } 0 := by
  refine ⟨rfl, by decide, rfl, rfl, rfl, rfl⟩

/-- Claim C8 counterexample: a gc pass over two entries in which the newer,
over-limit entry is deleted before the older entry's weigher rejects —
the error propagates, yet the deleted-key list is non-empty, so the map is
not left unmodified as the claim states. -/
theorem c8_counterexample :
    gc [((1 : Int), (10 : Int)), (2, 20)] (fun v => v)
      (fun a b => Int.sign (a - b)) failingWeigher 5 =
      ([2], Except.error ()) ∧
    ([2] : List Int) ≠ [] := ⟨rfl, by decide⟩

/-- Claim C8 as amended: a weigher error propagates out of `gc` unchanged
(the outcome is the error of one of the entries' weighers), but deletions
performed before the failure are not rolled back (see the counterexample). -/
theorem c8_amended_propagation {K V S E : Type} (entries : List (K × V))
    (sortKey : V → S) (cmp : S → S → Int) (weigher : V → Except E Int)
    (limit : Int) (e : E)
    (h : (gc entries sortKey cmp weigher limit).2 = Except.error e) :
    ∃ kv, kv ∈ entries ∧ weigher kv.2 = Except.error e := by
  unfold gc at h
  rcases gcLoop_error_mem weigher limit _ _ _ _ h with ⟨kv, hmem, herr⟩
  exact ⟨kv, mem_sortByKeyDesc _ _ _ _ hmem, herr⟩

/-- Witness for the amended C8 at the counterexample input. -/
theorem c8_amended_propagation_witness :
    ∃ kv, kv ∈ [((1 : Int), (10 : Int)), (2, 20)] ∧
      failingWeigher kv.2 = Except.error () :=
  c8_amended_propagation [((1 : Int), (10 : Int)), (2, 20)] (fun v => v)
    (fun a b => Int.sign (a - b)) failingWeigher 5 () rfl

/-- Claim C9 (code bug): `Bytes.from` ignores the `kilobytes` field and
counts `megabytes` twice (the `kilobytes` line of the source reads
`from.megabytes`), so the claimed value g·1024³ + m·1024² + k·1024 + b is
not produced: one kilobyte yields 0 bytes and one megabyte yields
1049600 ≠ 1024². -/
theorem c9_bytes_from_bug :
    bytesFrom { kilobytes := some 1 } = 0 ∧
    bytesFrom { kilobytes := some 1 } ≠ 1024 ∧
    bytesFrom { megabytes := some 1 } = 1049600 ∧
    bytesFrom { megabytes := some 1 } ≠ 1024 * 1024 := by
  refine ⟨rfl, by decide, rfl, by decide⟩

/-- Claim C10: whenever the collected per-Target weights total more than
`maximumStorageBytes` (a non-negative byte count) and each weight is
non-negative, the shift loop of the global rebalancing pass exits with at
least one Target remaining, so the `Shifted out all of the targets` branch
and the division by an empty list are unreachable. -/
theorem c10_rebalance_safe (weights : List ℚ) (maximum : ℚ)
    (hsum : maximum < weights.sum) (hw : ∀ w ∈ weights, 0 ≤ w)
    (hmax : 0 ≤ maximum) :
    ∃ limit l, rebalance weights maximum = some (limit, l) ∧ l ≠ [] := by
  unfold rebalance
  have hs : (jsSort (fun a b => decide (a ≤ b)) weights).sum = weights.sum :=
    sum_jsSort _ _
  obtain ⟨l2, m2, he, hne⟩ := shiftLoop_total
    (jsSort (fun a b => decide (a ≤ b)) weights) maximum
    (by rw [hs]; exact hsum) (Or.inl hmax)
  rw [he]
  exact ⟨m2 / (l2.length : ℚ), l2, rfl, hne⟩

/-- Witness for C10: weights [1, 2] against budget 1. -/
theorem c10_rebalance_safe_witness :
    ∃ limit l, rebalance [1, 2] 1 = some (limit, l) ∧ l ≠ [] :=
  c10_rebalance_safe [1, 2] 1 (by norm_num)
    (by
      intro w hw
      simp at hw
      rcases hw with rfl | rfl <;> norm_num)
    (by norm_num)

/-! ## Lemmas about extraction and response building (for C5 and C7) -/

theorem ageBase_applyDirective (acc : CacheRuleParameters) (raw : String) :
    (applyDirective acc raw).ageBase = acc.ageBase := by
  simp only [applyDirective, apply_ite CacheRuleParameters.ageBase, ite_self]

theorem ageBase_foldl (rr : List String) (acc : CacheRuleParameters) :
    (rr.foldl applyDirective acc).ageBase = acc.ageBase := by
  induction rr generalizing acc with
  | nil => rfl
  | cons r rest ih => rw [List.foldl_cons, ih, ageBase_applyDirective]

theorem parseCacheHeader_ageBase (resp : Response) (now : Int) :
    (parseCacheHeader resp now).ageBase = some now := by
  unfold parseCacheHeader
  rw [ageBase_foldl]
  rfl

theorem extract_ageBase_of_no_age (resp : Response) (t0 : Int)
    (h : headerGet resp.headers "age" = none) :
    (extractCacheRules resp t0).ageBase = some t0 := by
  simp only [extractCacheRules, h]
  exact parseCacheHeader_ageBase resp t0

theorem extract_ageBase_of_age (resp : Response) (t0 : Int) (a : String)
    (n : Int) (h : headerGet resp.headers "age" = some a) (ha : a ≠ "")
    (hp : jsParseInt a = some n) :
    (extractCacheRules resp t0).ageBase = some (t0 - n * 1000) := by
  simp only [extractCacheRules, h]
  rw [if_neg ha]
  simp [hp]

theorem headerGet_age_hitFinish (rules : CacheRuleParameters)
    (stored : Response) (t0 t ab : Int) (h : rules.ageBase = some ab) :
    headerGet (hitFinish rules stored t0 t).headers "age" =
      some (toString (ceilSeconds (t - ab))) := by
  simp only [hitFinish, buildCachedResponse, respSetHeader]
  rw [headerGet_headerSet_other _ _ _ _ (by decide),
    headerGet_headerSet_self, h]
  rfl

/-- Claim C5: on a cache hit the rebuilt response carries an `age` header
equal to the ceiling of `(now − ageBase)` in seconds, where extraction set
`ageBase` to the receipt instant minus the original response's `Age` header
value in seconds, or to the receipt instant itself when no `Age` header was
present. -/
theorem c5_age_header (resp stored : Response) (t0 t1 t : Int) :
    (headerGet resp.headers "age" = none →
      (extractCacheRules resp t0).ageBase = some t0 ∧
      headerGet (hitFinish (extractCacheRules resp t0) stored t1 t).headers "age" =
        some (toString (ceilSeconds (t - t0)))) ∧
    (∀ a n, headerGet resp.headers "age" = some a → a ≠ "" →
      jsParseInt a = some n →
      (extractCacheRules resp t0).ageBase = some (t0 - n * 1000) ∧
      headerGet (hitFinish (extractCacheRules resp t0) stored t1 t).headers "age" =
        some (toString (ceilSeconds (t - (t0 - n * 1000))))) := by
  constructor
  · intro h
    have hb := extract_ageBase_of_no_age resp t0 h
    exact ⟨hb, headerGet_age_hitFinish _ _ _ _ _ hb⟩
  · intro a n h ha hp
    have hb := extract_ageBase_of_age resp t0 a n h ha hp
    exact ⟨hb, headerGet_age_hitFinish _ _ _ _ _ hb⟩

/-- Witness for C5: `Age: 10` received at instant 0, hit rebuilt at instant
10000 — `ageBase` is −10000 and the served age header value is 20 seconds. -/
theorem c5_age_header_witness :
    (extractCacheRules respWithAge 0).ageBase = some (0 - 10 * 1000) ∧
    headerGet (hitFinish (extractCacheRules respWithAge 0)
        { status := 200, headers := [] } 9000 10000).headers "age" =
      some (toString (ceilSeconds (10000 - (0 - 10 * 1000)))) :=
  (c5_age_header respWithAge { status := 200, headers := [] } 0 9000 10000).2
    "10" 10 rfl (by decide) rfl

/-- Claim C7: a fetched response with status ≥ 500 replaces the location's
entry with `Fail` and is returned unchanged (in particular no
`snarfetch-status` header is added), while responses completed on the
NOSTORE, MISS and HIT paths carry a `snarfetch-status` header beginning
with the corresponding literal prefix. -/
theorem c7_fail_and_status_header (r : Response) (t0 now : Int) :
    (500 ≤ r.status →
      postFetchSlice r t0 now = (some LocStatus.failStatus, TaskPC.doneSt r)) ∧
    (r.status < 500 → (extractCacheRules r now).noStore = true →
      ∃ resp rest,
        postFetchSlice r t0 now =
          (some LocStatus.noStoreStatus, TaskPC.doneSt resp) ∧
        headerGet resp.headers "snarfetch-status" = some ("NOSTORE" ++ rest)) ∧
    (r.status < 500 → (extractCacheRules r now).noStore = false →
      ∃ stored rest,
        postFetchSlice r t0 now =
          (some (LocStatus.cachedStatus (extractCacheRules r now) stored),
            TaskPC.missWait t0 (extractCacheRules r now) stored) ∧
        ∀ t2,
          headerGet (buildCachedResponse (extractCacheRules r now) stored t2).headers
            "snarfetch-status" = some ("MISS" ++ rest)) ∧
    (∀ rules stored t2 t3, ∃ rest,
      headerGet (hitFinish rules stored t2 t3).headers "snarfetch-status" =
        some ("HIT" ++ rest)) := by
  refine ⟨?_, ?_, ?_, ?_⟩
  · intro h
    unfold postFetchSlice
    rw [if_pos h]
  · intro h1 h2
    have hn : ¬ 500 ≤ r.status := by omega
    simp only [postFetchSlice]
    rw [if_neg hn, if_pos h2]
    refine ⟨_, " in " ++ toString (now - t0) ++ " ms", rfl, ?_⟩
    simp only [respSetHeader]
    rw [headerGet_headerSet_self]
    congr 1
  · intro h1 h2
    have hn : ¬ 500 ≤ r.status := by omega
    simp only [postFetchSlice]
    rw [if_neg hn, if_neg (by simp [h2])]
    refine ⟨_, " in " ++ toString (now - t0) ++ " ms", rfl, ?_⟩
    intro t2
    simp only [buildCachedResponse, respSetHeader]
    rw [headerGet_headerSet_other _ _ _ _ (by decide), headerGet_headerSet_self]
    congr 1
  · intro rules stored t2 t3
    refine ⟨" in " ++ toString (t3 - t2) ++ " ms", ?_⟩
    simp only [hitFinish, respSetHeader]
    rw [headerGet_headerSet_self]
    congr 1

/-- Witness for C7: a 500 response makes the entry `Fail` and is returned
exactly as delivered by the fetcher. -/
theorem c7_fail_and_status_header_witness :
    postFetchSlice resp500 0 3 =
      (some LocStatus.failStatus, TaskPC.doneSt resp500) :=
  (c7_fail_and_status_header resp500 0 3).1 (by decide)

/-! ## Lemmas about the Target transition system (for C1) -/

theorem bool_not_ne (i : Bool) : (!i) ≠ i := by cases i <;> decide

theorem pcOf_setPc_self (s : Sys) (i : Bool) (p : TaskPC) :
    pcOf (setPc s i p) i = p := by
  cases i <;> rfl

theorem pcOf_setPc_of_ne (s : Sys) {i k : Bool} (p : TaskPC) (h : k ≠ i) :
    pcOf (setPc s i p) k = pcOf s k := by
  cases i <;> cases k <;> first | rfl | exact absurd rfl h

theorem known_setPc (s : Sys) (i : Bool) (p : TaskPC) :
    (setPc s i p).known = s.known := by
  cases i <;> rfl

theorem fetchCount_setPc (s : Sys) (i : Bool) (p : TaskPC) :
    (setPc s i p).fetchCount = s.fetchCount := by
  cases i <;> rfl

theorem pcOf_of_idle (s : Sys) (hA : s.pcA = TaskPC.idle)
    (hB : s.pcB = TaskPC.idle) : ∀ k, pcOf s k = TaskPC.idle := by
  intro k
  cases k
  · exact hB
  · exact hA

theorem applyDispatch_none (s : Sys) (i : Bool) (t0 : Int)
    (h : s.known = none) :
    applyDispatch s i t0 =
      { setPc s i (TaskPC.awaitFetch t0) with
          known := some (LocStatus.unknownStatus i)
          fetchCount := s.fetchCount + 1 } := by
  unfold applyDispatch
  rw [h]

theorem invAct_preserved (res : Bool → Response) {s s2 : Sys}
    (h : Step res Lab.act s s2) (hI : InvAct s) : InvAct s2 := by
  cases h with
  | tick d hd =>
    rcases hI with ⟨h1, h2, h3, h4⟩ | ⟨j, t0, h1, h2, h3, h4⟩
    · exact Or.inl ⟨h1, h2, h3, h4⟩
    · exact Or.inr ⟨j, t0, h1, h2, h3, h4⟩
  | startWait i j hpc hk =>
    rcases hI with ⟨h1, h2, h3, h4⟩ | ⟨j2, t0, h1, h2, h3, h4⟩
    · rw [h1] at hk
      cases hk
    · have heq : some (LocStatus.unknownStatus j) =
          some (LocStatus.unknownStatus j2) := hk.symm.trans h1
      injection heq with h5
      injection h5 with h6
      subst h6
      have hij : i ≠ j := by
        intro he
        subst he
        exact TaskPC.noConfusion (hpc.symm.trans h3)
      have hieq : i = !j := bool_eq_not_of_ne hij
      refine Or.inr ⟨j, t0, ?_, ?_, ?_, Or.inr ⟨s.now, ?_⟩⟩
      · rw [known_setPc]
        exact h1
      · rw [fetchCount_setPc]
        exact h2
      · rw [pcOf_setPc_of_ne _ _ (Ne.symm hij)]
        exact h3
      · rw [← hieq]
        exact pcOf_setPc_self s i _
  | startRun i hpc hk =>
    rcases hI with ⟨h1, h2, h3, h4⟩ | ⟨j2, t0, h1, h2, h3, h4⟩
    · rw [applyDispatch_none s i s.now h1]
      refine Or.inr ⟨i, s.now, rfl, ?_, ?_, Or.inl ?_⟩
      · show s.fetchCount + 1 = 1
        rw [h2]
      · show pcOf (setPc s i (TaskPC.awaitFetch s.now)) i = TaskPC.awaitFetch s.now
        exact pcOf_setPc_self s i _
      · show pcOf (setPc s i (TaskPC.awaitFetch s.now)) (!i) = TaskPC.idle
        rw [pcOf_setPc_of_ne _ _ (bool_not_ne i)]
        exact pcOf_of_idle s h3 h4 (!i)
    · exact absurd h1 (hk j2)
  | resumeRun i t0 j r hpc hj =>
    exfalso
    rcases hI with ⟨h1, h2, h3, h4⟩ | ⟨j2, t02, h1, h2, h3, h4⟩
    · exact TaskPC.noConfusion ((pcOf_of_idle s h3 h4 j).symm.trans hj)
    · by_cases hb : j = j2
      · subst hb
        exact TaskPC.noConfusion (h3.symm.trans hj)
      · have hbe : j = !j2 := bool_eq_not_of_ne hb
        rcases h4 with h4 | ⟨t1, h4⟩
        · rw [hbe] at hj
          exact TaskPC.noConfusion (h4.symm.trans hj)
        · rw [hbe] at hj
          exact TaskPC.noConfusion (h4.symm.trans hj)
  | hitDone i t0 rules stored hpc =>
    exfalso
    rcases hI with ⟨h1, h2, h3, h4⟩ | ⟨j2, t02, h1, h2, h3, h4⟩
    · exact TaskPC.noConfusion ((pcOf_of_idle s h3 h4 i).symm.trans hpc)
    · by_cases hb : i = j2
      · subst hb
        exact TaskPC.noConfusion (h3.symm.trans hpc)
      · have hbe : i = !j2 := bool_eq_not_of_ne hb
        rcases h4 with h4 | ⟨t1, h4⟩
        · rw [hbe] at hpc
          exact TaskPC.noConfusion (h4.symm.trans hpc)
        · rw [hbe] at hpc
          exact TaskPC.noConfusion (h4.symm.trans hpc)

/-- Claim C1: single-flight coalescing.  For two concurrent `Target.fetch`
calls with the same `(host, port, pathname, query)`, along every
interleaving in which no `#postFetch` has yet completed (i.e. before the
cacheability of the location is known), the underlying fetcher has been
invoked at most once: the second caller parks on the `Unknown` entry's
`unblock` future installed by the first and only fetches after that future
resolves — and then only if the post-wait status is not a valid `Cached`
entry, as encoded in the dispatch step of the transition system. -/
theorem c1_single_flight (res : Bool → Response) (n0 : Int) (s : Sys)
    (h : Relation.ReflTransGen (Step res Lab.act) (initSys n0) s) :
    s.fetchCount ≤ 1 := by
  have hInv : InvAct s := by
    induction h with
    | refl => exact Or.inl ⟨rfl, rfl, rfl, rfl⟩
    | tail hab hstep ih => exact invAct_preserved res hstep ih
  rcases hInv with ⟨_, h2, _, _⟩ | ⟨j, t0, _, h2, _, _⟩
  · omega
  · omega

/-- Witness for C1 at the initial state (the empty interleaving). -/
theorem c1_single_flight_witness : (initSys 0).fetchCount ≤ 1 :=
  c1_single_flight (fun _ => { status := 200, headers := [] }) 0 (initSys 0)
    Relation.ReflTransGen.refl

end Snarfetch
